import Mathlib

/-!
Shallow embedding of the shared message queue of rmw_hazcat
(src/src/hazcat_message_queue.c together with the layout declared in
src/include/rmw_hazcat/hazcat_message_queue.h).

Modelling conventions:
* Machine integers are `Nat`; where 32-bit wraparound matters (the
  `uint32_t` decrement of `interest_count`) we reduce modulo `2 ^ 32`
  explicitly.
* The per-topic shared segment is a `MessageQueue` record; the arrays
  that follow the header in memory (`ref_bits[len]` and the per-domain
  entry columns) are total functions from indices, standing for the raw
  bytes of the mapping.  Reads the C code performs outside the populated
  region (for example an out-of-range column) read whatever the function
  yields there, just as the C code reads whatever bytes happen to be at
  that address.
* Calls into the allocator subsystem (DEALLOCATE, SHARE, the copies) are
  recorded as emitted actions `(alloc_shmem_id, offset)`: the C code
  resolves `alloc_shmem_id` through the per-process registry hash table
  and invokes the allocator method on `offset`.
* The advisory file lock is tracked by a boolean that records whether the
  lock acquired on entry is still held when the function returns.
* The functions are the sequential (single-caller) semantics of the code:
  each C function body is translated statement by statement.
-/

namespace Hazcat

/-- DOMAINS_PER_TOPIC from hazcat_message_queue.h. -/
def DOMAINS_PER_TOPIC : Nat := 32

/-- Modulus of a `uint32_t`. -/
def UINT32_MOD : Nat := 4294967296

/-- Modulus of a `uint16_t` (pub_count / sub_count width). -/
def UINT16_MAX : Nat := 65535

/-- sizeof(message_queue_t) on x86-64 Linux: atomic_int(4)+pad(4)+
    size_t len(8)+size_t num_domains(8)+uint32 domains[32](128)+
    uint16 pub_count(2)+uint16 sub_count(2)+pad(4) = 160. -/
def sizeof_message_queue : Nat := 160

/-- sizeof(ref_bits_t) on x86-64 Linux: uint32(4)+uint32(4)+
    atomic_uint_fast32_t(8) = 16. -/
def sizeof_ref_bits : Nat := 16

/-- sizeof(entry_t) on x86-64 Linux: int(4)+uint32(4)+size_t(8) = 16. -/
def sizeof_entry : Nat := 16

/-- Modelled from the spec: the domain id combines device type and device
    number as `(device_type << 16) | device_number` (spec section 3,
    "Domain id"); the header hma_template.h that defines the encoding is
    not among the sources. -/
def domain_id (device_type device_number : Nat) : Nat :=
  (device_type <<< 16) ||| device_number

/-- Modelled from the spec: the domain tag of host memory.  hma_template.h
    (which defines the CPU enumerator) is not among the sources; the value
    0 is forced by the spec's end-to-end scenario 4 (a pure-CPU topic works
    through the zero-copy branch of take, which indexes entry columns with
    the raw domain value) together with column 0 always being CPU. -/
def CPU : Nat := domain_id 0 0

/-- entry_t: one cell of a domain column. -/
structure Entry where
  alloc_shmem_id : Nat
  offset : Nat
  len : Nat
deriving DecidableEq

/-- ref_bits_t: the per-slot record. -/
structure RefBits where
  interest_count : Nat
  availability : Nat
  lock : Nat
deriving DecidableEq

/-- message_queue_t together with the arrays that follow it in the shared
    segment.  `refBits i` is the ref_bits record of slot `i`; `entries d i`
    is the entry cell of column `d` and slot `i`. -/
structure MessageQueue where
  index : Nat
  len : Nat
  num_domains : Nat
  domains : Nat → Nat
  pub_count : Nat
  sub_count : Nat
  refBits : Nat → RefBits
  entries : Nat → Nat → Entry

/-- The deallocation sweep shared by publish (over all DOMAINS_PER_TOPIC
    bit positions) and take (over num_domains columns): for every column
    `d` below the bound whose availability bit is set, the owning
    allocator is looked up in the registry by the entry's
    `alloc_shmem_id` and `DEALLOCATE(alloc, offset)` is issued. -/
def rowDeallocs (entries : Nat → Nat → Entry) (bound i avail : Nat) :
    List (Nat × Nat) :=
  (List.range bound).filterMap fun d =>
    if avail.testBit d then
      some ((entries d i).alloc_shmem_id, (entries d i).offset)
    else none

/-- Result of hazcat_publish: the updated queue, the slot published into
    (the pre-increment value of index), and the deallocations issued for
    a still-live overwritten row. -/
structure PublishResult where
  mq : MessageQueue
  slot : Nat
  deallocs : List (Nat × Nat)

/-- hazcat_publish (hazcat_message_queue.c lines 291-353), sequential
    semantics.  `domain_col` is the publisher's array_num, `shmem_id` its
    allocator id, `offset` the value of PTR_TO_OFFSET(alloc, msg) and
    `msglen` the published length.  The fetch-add of `index` followed by
    the CAS loop reduces, for a single caller, to `index := (i+1) % len`
    with `i` the pre-increment value. -/
def hazcat_publish (mq : MessageQueue)
    (domain_col shmem_id offset msglen : Nat) : PublishResult :=
  let i := mq.index
  let rb := mq.refBits i
  let deallocs :=
    if 0 < rb.interest_count then
      rowDeallocs mq.entries DOMAINS_PER_TOPIC i rb.availability
    else []
  { mq :=
      { mq with
        index := (i + 1) % mq.len
        entries := fun c j =>
          if c = domain_col ∧ j = i then ⟨shmem_id, offset, msglen⟩
          else mq.entries c j
        refBits := fun j =>
          if j = i then
            { interest_count := mq.sub_count
              availability := 1 <<< domain_col
              lock := 0 }
          else mq.refBits j }
    slot := i
    deallocs := deallocs }

/-- Slot selection of hazcat_take (lines 374-378): start from the
    subscriber's next_index and skip ahead when more than `depth` slots
    behind the write cursor. -/
def take_slot (mq : MessageQueue) (next_index depth : Nat) : Nat :=
  if (mq.index + mq.len - next_index) % mq.len > depth then
    (mq.index + mq.len - depth) % mq.len
  else next_index

/-- The `while ((1 << d) & ~availability) d++;` scan of hazcat_take
    (lines 409-412): the lowest set bit of the availability mask. -/
def lowestAvailable (avail : Nat) : Nat :=
  ((List.range DOMAINS_PER_TOPIC).find? fun d => avail.testBit d).getD
    DOMAINS_PER_TOPIC

/-- Intermediate state produced by the two branches of hazcat_take
    (zero-copy reuse, lines 391-403, versus copy into the subscriber's
    domain, lines 404-449). -/
structure TakeBranch where
  entries : Nat → Nat → Entry
  availability : Nat
  shares : List (Nat × Nat)
  copied : Bool
  res : Nat × Nat

/-- Result of hazcat_take: the updated queue, the subscriber's updated
    next_index, the returned message reference as the pair
    (allocator shmem id, offset) or none, the slot examined, the emitted
    SHARE and DEALLOCATE actions, whether a cross-domain copy was
    performed, and whether the file lock acquired on entry is still held
    at return. -/
structure TakeResult where
  mq : MessageQueue
  next_index : Nat
  result : Option (Nat × Nat)
  slot : Nat
  deallocs : List (Nat × Nat)
  shares : List (Nat × Nat)
  copied : Bool
  fileLockHeld : Bool

/-- hazcat_take (hazcat_message_queue.c lines 358-473), sequential
    semantics.  `next_index`, `depth`, `array_num` are the subscriber's
    fields; `alloc_domain` and `alloc_shmem_id` describe its allocator;
    `alloc_offset len` is the offset its allocator returns from
    ALLOCATE(alloc, len).  Note the zero-copy branch indexes the entry
    column with the allocator's raw `domain` value — exactly as
    `get_entry(mq, alloc->domain, i)` does on line 393 — while the
    availability test and the copy branch use `array_num`. -/
def hazcat_take (mq : MessageQueue)
    (next_index depth array_num alloc_domain alloc_shmem_id : Nat)
    (alloc_offset : Nat → Nat) : TakeResult :=
  let i := take_slot mq next_index depth
  if i = mq.index then
    -- "No message available" (lines 380-386): the early return skips the
    -- fcntl unlock at the end of the function, so the file lock stays
    -- held.
    { mq := mq, next_index := next_index, result := none, slot := i
      deallocs := [], shares := [], copied := false, fileLockHeld := true }
  else
    let rb := mq.refBits i
    let step : TakeBranch :=
      if (1 <<< array_num) &&& rb.availability ≠ 0 then
        -- Message already in the preferred domain: read the entry at
        -- column alloc->domain, SHARE it, return it without copying.
        let e := mq.entries alloc_domain i
        { entries := mq.entries
          availability := rb.availability
          shares := [(e.alloc_shmem_id, e.offset)]
          copied := false
          res := (e.alloc_shmem_id, e.offset) }
      else
        -- Copy from the first available column into the subscriber's
        -- allocator, record the copy in column array_num, set its bit.
        let d := lowestAvailable rb.availability
        let e := mq.entries d i
        let here := alloc_offset e.len
        { entries := fun c j =>
            if c = array_num ∧ j = i then ⟨alloc_shmem_id, here, e.len⟩
            else mq.entries c j
          availability := rb.availability ||| (1 <<< array_num)
          shares := []
          copied := true
          res := (alloc_shmem_id, here) }
    -- `--(ref_bits->interest_count)` on a uint32_t.
    let interest2 := (rb.interest_count + (UINT32_MOD - 1)) % UINT32_MOD
    let mq2 : MessageQueue :=
      { mq with
        entries := step.entries
        refBits := fun j =>
          if j = i then
            { interest_count := interest2
              availability := step.availability
              lock := rb.lock }
          else mq.refBits j }
    let deallocs :=
      if interest2 = 0 then
        rowDeallocs mq2.entries mq.num_domains i step.availability
      else []
    { mq := mq2, next_index := (i + 1) % mq.len, result := some step.res
      slot := i, deallocs := deallocs, shares := step.shares
      copied := step.copied, fileLockHeld := false }

/-- Size in bytes the registration code gives the queue segment:
    `sizeof(message_queue_t) + depth * sizeof(ref_bits_t) +
     depth * sizeof(entry_t)` (hazcat_message_queue.c lines 128-129 and
    215-216).  Note the formula accounts for exactly one entry column,
    whatever num_domains is. -/
def mq_segment_size (depth : Nat) : Nat :=
  sizeof_message_queue + depth * sizeof_ref_bits + depth * sizeof_entry

/-- hazcat_register_pub_or_sub, fresh-creation path (lines 126-157): the
    queue segment is ftruncated (zero-filled) to `mq_segment_size depth`
    and the header is initialized.  Returns the initialized queue and the
    segment size. -/
def hazcat_register_fresh (depth domain : Nat) : MessageQueue × Nat :=
  let domains0 : Nat → Nat := fun j => if j = 0 then CPU else 0
  let mq0 : MessageQueue :=
    { index := 0
      len := depth
      num_domains := 1
      domains := domains0
      pub_count := 0
      sub_count := 0
      refBits := fun _ => ⟨0, 0, 0⟩
      entries := fun _ _ => ⟨0, 0, 0⟩ }
  let mq1 :=
    if domain ≠ CPU then
      { mq0 with
        num_domains := 2
        domains := fun j => if j = 1 then domain else domains0 j }
    else mq0
  (mq1, mq_segment_size depth)

/-- Result of registering against an existing queue. -/
structure RegisterResult where
  ok : Bool
  mq : MessageQueue
  array_num : Nat
  needs_resize : Bool
  truncate_size : Option Nat

/-- hazcat_register_pub_or_sub, existing-queue path (lines 179-226):
    scan all DOMAINS_PER_TOPIC slots of `domains` for the endpoint's
    domain; on a miss, fail if the queue already carries
    DOMAINS_PER_TOPIC domains, otherwise append the domain as a new
    column; grow `len` when the endpoint asks for a larger depth; when
    either happened, ftruncate the segment to `mq_segment_size depth`.
    (The effect of a shrinking ftruncate on stored rows is outside this
    model; the header fields are what the code writes.)  On the failure
    path the code returns before touching array_num, len or the segment. -/
def hazcat_register_existing (mq : MessageQueue) (domain depth : Nat) :
    RegisterResult :=
  match (List.range DOMAINS_PER_TOPIC).find? fun i => mq.domains i = domain with
  | some i =>
    let resize := depth > mq.len
    let mq1 := if depth > mq.len then { mq with len := depth } else mq
    { ok := true
      mq := mq1
      array_num := i
      needs_resize := resize
      truncate_size := if resize then some (mq_segment_size depth) else none }
  | none =>
    if mq.num_domains = DOMAINS_PER_TOPIC then
      { ok := false, mq := mq, array_num := 0, needs_resize := false
        truncate_size := none }
    else
      let a := mq.num_domains
      let mq1 :=
        { mq with
          domains := fun j => if j = a then domain else mq.domains j
          num_domains := a + 1 }
      let mq2 := if depth > mq1.len then { mq1 with len := depth } else mq1
      { ok := true
        mq := mq2
        array_num := a
        needs_resize := true
        truncate_size := some (mq_segment_size depth) }

/-- rmw_ret_t values that the unregister functions return. -/
inductive RmwRet where
  | ok
  | error
  | invalidArgument
deriving DecidableEq

/-- Result of hazcat_unregister_publisher / hazcat_unregister_subscription:
    the return code, the per-process allocator registry after the call,
    the endpoint's message-queue pointer after the call, the queue state
    (when the endpoint had one), and whether the segment was unmapped and
    unlinked. -/
structure UnregisterResult where
  ret : RmwRet
  registry : Nat → Option Nat
  endpoint_mq : Option MessageQueue
  mq : Option MessageQueue
  destroyed : Bool

/-- hazcat_unregister_publisher (lines 475-536).  `registry` is the
    per-process hash table from allocator shmem id to attached address;
    `mqOpt` is the endpoint's `data->mq` pointer (`none` models NULL).
    The hashtable_remove on line 479 executes before the NULL check on
    line 482. -/
def hazcat_unregister_publisher (registry : Nat → Option Nat)
    (alloc_shmem_id : Nat) (mqOpt : Option MessageQueue) : UnregisterResult :=
  let registry2 : Nat → Option Nat :=
    fun k => if k = alloc_shmem_id then none else registry k
  match mqOpt with
  | none =>
    { ret := .invalidArgument, registry := registry2, endpoint_mq := none
      mq := none, destroyed := false }
  | some mq =>
    if 0 < mq.pub_count then
      let mq1 := { mq with pub_count := mq.pub_count - 1 }
      { ret := .ok, registry := registry2, endpoint_mq := none
        mq := some mq1
        destroyed := mq1.pub_count = 0 && mq1.sub_count = 0 }
    else
      { ret := .error, registry := registry2, endpoint_mq := none
        mq := some mq, destroyed := false }

/-- hazcat_unregister_subscription (lines 538-592); identical to the
    publisher variant except that it decrements sub_count. -/
def hazcat_unregister_subscription (registry : Nat → Option Nat)
    (alloc_shmem_id : Nat) (mqOpt : Option MessageQueue) : UnregisterResult :=
  let registry2 : Nat → Option Nat :=
    fun k => if k = alloc_shmem_id then none else registry k
  match mqOpt with
  | none =>
    { ret := .invalidArgument, registry := registry2, endpoint_mq := none
      mq := none, destroyed := false }
  | some mq =>
    if 0 < mq.sub_count then
      let mq1 := { mq with sub_count := mq.sub_count - 1 }
      { ret := .ok, registry := registry2, endpoint_mq := none
        mq := some mq1
        destroyed := mq1.pub_count = 0 && mq1.sub_count = 0 }
    else
      { ret := .error, registry := registry2, endpoint_mq := none
        mq := some mq, destroyed := false }

/-- Queue with len 2 and cursor 1: one message is pending in slot 0. -/
def mqTakeW : MessageQueue :=
  { index := 1, len := 2, num_domains := 1, domains := fun _ => 0
    pub_count := 1, sub_count := 1
    refBits := fun j => if j = 0 then ⟨1, 1, 0⟩ else ⟨0, 0, 0⟩
    entries := fun c j => if c = 0 ∧ j = 0 then ⟨5, 100, 8⟩ else ⟨0, 0, 0⟩ }

/-- Queue whose slot 0 is live with copies in columns 0 and 1, about to
    be overwritten by a publish. -/
def mqPubW : MessageQueue :=
  { index := 0, len := 4, num_domains := 2
    domains := fun j => if j = 1 then 65536 else 0
    pub_count := 1, sub_count := 2
    refBits := fun j => if j = 0 then ⟨1, 3, 0⟩ else ⟨0, 0, 0⟩
    entries := fun c j =>
      if j = 0 then
        if c = 0 then ⟨7, 40, 8⟩ else if c = 1 then ⟨9, 60, 8⟩ else ⟨0, 0, 0⟩
      else ⟨0, 0, 0⟩ }

/-- One-domain queue with one pending message and a single interested
    subscriber. -/
def mqT5 : MessageQueue :=
  { index := 1, len := 2, num_domains := 1, domains := fun _ => 0
    pub_count := 1, sub_count := 1
    refBits := fun j => if j = 0 then ⟨1, 1, 0⟩ else ⟨0, 0, 0⟩
    entries := fun c j => if c = 0 ∧ j = 0 then ⟨5, 100, 8⟩ else ⟨0, 0, 0⟩ }

/-- Two-domain queue (CPU in column 0, the CUDA domain id 65536 in
    column 1) whose slot 0 was published by a CUDA publisher: the entry
    lives in column 1, availability has exactly bit 1 set. -/
def mqC2state : MessageQueue :=
  { index := 1, len := 2, num_domains := 2
    domains := fun j => if j = 0 then 0 else if j = 1 then 65536 else 0
    pub_count := 1, sub_count := 1
    refBits := fun j => if j = 0 then ⟨1, 2, 0⟩ else ⟨0, 0, 0⟩
    entries := fun c j => if c = 1 ∧ j = 0 then ⟨5, 100, 8⟩ else ⟨0, 0, 0⟩ }

/-- Queue with no pending message for a subscriber at next_index =
    index. -/
def mqC8state : MessageQueue :=
  { index := 0, len := 4, num_domains := 1, domains := fun _ => 0
    pub_count := 1, sub_count := 1
    refBits := fun _ => ⟨0, 0, 0⟩, entries := fun _ _ => ⟨0, 0, 0⟩ }

/-- Existing one-domain queue of depth 4 (fresh creation size 288
    bytes). -/
def mqRegW : MessageQueue :=
  { index := 0, len := 4, num_domains := 1, domains := fun _ => 0
    pub_count := 1, sub_count := 0
    refBits := fun _ => ⟨0, 0, 0⟩, entries := fun _ _ => ⟨0, 0, 0⟩ }


/-- Reduction of a remainder when the dividend is below twice the modulus. -/
lemma mod_two_mul (a len : Nat) (h : a < 2 * len) :
    a % len = if a < len then a else a - len := by
  split
  · exact Nat.mod_eq_of_lt (by assumption)
  · have h1 : len ≤ a := Nat.le_of_not_lt (by assumption)
    rw [Nat.mod_eq_sub_mod h1, Nat.mod_eq_of_lt (by omega)]

/-- Advancing one past a slot whose skew is at most `depth` keeps the skew
    at most `depth`. -/
lemma keep_last_step (len index i depth : Nat)
    (hidx : index < len) (hi : i < len) (hne : i ≠ index)
    (hs : (index + len - i) % len ≤ depth) :
    (index + len - (i + 1) % len) % len ≤ depth := by
  have h2 : i + 1 < 2 * len := by omega
  have h3 : index + len - i < 2 * len := by omega
  rw [mod_two_mul _ _ h3] at hs
  rw [mod_two_mul _ _ h2]
  have h4 : index + len - (if i + 1 < len then i + 1 else i + 1 - len) < 2 * len := by
    split <;> omega
  rw [mod_two_mul _ _ h4]
  split_ifs at hs ⊢ <;> omega

/-- The skew of the skip-ahead slot `(index + len - depth) % len` is
    exactly `depth`. -/
lemma skip_slot_skew (len index depth : Nat)
    (hidx : index < len) (hd : depth < len) :
    (index + len - (index + len - depth) % len) % len = depth := by
  have h3 : index + len - depth < 2 * len := by omega
  rw [mod_two_mul _ _ h3]
  split
  · have he : index + len - (index + len - depth) = depth := by omega
    rw [he, Nat.mod_eq_of_lt hd]
  · have he : index + len - (index + len - depth - len) = len + depth := by omega
    rw [he, Nat.add_comm, Nat.add_mod_right, Nat.mod_eq_of_lt hd]

/-- The slot examined by a take is below `len`. -/
lemma take_slot_lt (mq : MessageQueue) (n d : Nat) (h0 : 0 < mq.len)
    (hn : n < mq.len) : take_slot mq n d < mq.len := by
  unfold take_slot
  split
  · exact Nat.mod_lt _ h0
  · exact hn

/-- The slot examined by a take is never more than `depth` behind the
    write cursor. -/
lemma take_slot_skew (mq : MessageQueue) (n d : Nat) (h0 : 0 < mq.len)
    (hidx : mq.index < mq.len) :
    (mq.index + mq.len - take_slot mq n d) % mq.len ≤ d := by
  unfold take_slot
  split
  · rename_i h
    have hs0 : (mq.index + mq.len - n) % mq.len < mq.len := Nat.mod_lt _ h0
    exact le_of_eq (skip_slot_skew mq.len mq.index d hidx (by omega))
  · rename_i h
    exact Nat.le_of_not_lt h

/-- A take whose candidate slot reaches the write cursor is exactly the
    no-message return. -/
lemma hazcat_take_noMsg (mq : MessageQueue) (n d an ad aid : Nat)
    (f : Nat → Nat) (hm : take_slot mq n d = mq.index) :
    hazcat_take mq n d an ad aid f =
      { mq := mq, next_index := n, result := none, slot := take_slot mq n d
        deallocs := [], shares := [], copied := false, fileLockHeld := true } := by
  unfold hazcat_take
  rw [if_pos hm]

lemma hazcat_take_slot (mq : MessageQueue) (n d an ad aid : Nat)
    (f : Nat → Nat) :
    (hazcat_take mq n d an ad aid f).slot = take_slot mq n d := by
  unfold hazcat_take
  by_cases hm : take_slot mq n d = mq.index
  · rw [if_pos hm]
  · rw [if_neg hm]

lemma hazcat_take_next_index (mq : MessageQueue) (n d an ad aid : Nat)
    (f : Nat → Nat) (hm : take_slot mq n d ≠ mq.index) :
    (hazcat_take mq n d an ad aid f).next_index =
      (take_slot mq n d + 1) % mq.len := by
  unfold hazcat_take
  rw [if_neg hm]

lemma hazcat_take_isSome (mq : MessageQueue) (n d an ad aid : Nat)
    (f : Nat → Nat) (hm : take_slot mq n d ≠ mq.index) :
    (hazcat_take mq n d an ad aid f).result.isSome := by
  unfold hazcat_take
  rw [if_neg hm]
  rfl

/-- C1: slot selection and the keep-last invariant of hazcat_take. -/
theorem C1_take_keep_last (mq : MessageQueue) (n d an ad aid : Nat)
    (f : Nat → Nat) (h0 : 0 < mq.len) (hidx : mq.index < mq.len)
    (hn : n < mq.len) (hm : take_slot mq n d ≠ mq.index) :
    (hazcat_take mq n d an ad aid f).slot =
      (if (mq.index + mq.len - n) % mq.len ≤ d then n
       else (mq.index + mq.len - d) % mq.len)
    ∧ (hazcat_take mq n d an ad aid f).result.isSome
    ∧ (hazcat_take mq n d an ad aid f).next_index =
        ((hazcat_take mq n d an ad aid f).slot + 1) % mq.len
    ∧ (mq.index + mq.len -
        (hazcat_take mq n d an ad aid f).next_index) % mq.len ≤ d := by
  refine ⟨?_, hazcat_take_isSome mq n d an ad aid f hm, ?_, ?_⟩
  · rw [hazcat_take_slot]
    unfold take_slot
    rcases le_or_lt ((mq.index + mq.len - n) % mq.len) d with h | h
    · rw [if_neg (Nat.not_lt.mpr h), if_pos h]
    · rw [if_pos h, if_neg (Nat.not_le.mpr h)]
  · rw [hazcat_take_next_index mq n d an ad aid f hm, hazcat_take_slot]
  · rw [hazcat_take_next_index mq n d an ad aid f hm]
    exact keep_last_step mq.len mq.index (take_slot mq n d) d hidx
      (take_slot_lt mq n d h0 hn) hm (take_slot_skew mq n d h0 hidx)

/-- C3: hazcat_publish publishes into the pre-increment slot, reduces the
    cursor modulo len, and commits the entry and reference bits. -/
theorem C3_publish_commit (mq : MessageQueue) (a id off l : Nat) :
    (hazcat_publish mq a id off l).slot = mq.index
    ∧ (hazcat_publish mq a id off l).mq.index = (mq.index + 1) % mq.len
    ∧ (hazcat_publish mq a id off l).mq.entries a mq.index =
        ⟨id, off, l⟩
    ∧ ((hazcat_publish mq a id off l).mq.refBits mq.index).availability =
        1 <<< a
    ∧ ((hazcat_publish mq a id off l).mq.refBits mq.index).interest_count =
        mq.sub_count := by
  refine ⟨rfl, rfl, ?_, ?_, ?_⟩ <;> simp [hazcat_publish]

/-- Membership characterization of the deallocation sweep. -/
lemma mem_rowDeallocs (entries : Nat → Nat → Entry) (bound i avail : Nat)
    (p : Nat × Nat) :
    p ∈ rowDeallocs entries bound i avail ↔
      ∃ d, d < bound ∧ avail.testBit d = true ∧
        p = ((entries d i).alloc_shmem_id, (entries d i).offset) := by
  unfold rowDeallocs
  rw [List.mem_filterMap]
  constructor
  · rintro ⟨d, hd, hsome⟩
    by_cases hbit : avail.testBit d
    · exact ⟨d, List.mem_range.mp hd, hbit, by
        rw [if_pos hbit] at hsome
        exact (Option.some.injEq _ _ ▸ hsome).symm⟩
    · rw [if_neg hbit] at hsome
      exact absurd hsome (Option.noConfusion)
  · rintro ⟨d, hd, hbit, hp⟩
    exact ⟨d, List.mem_range.mpr hd, by rw [if_pos hbit, hp]⟩

/-- C4: a publish into a still-live row deallocates every
    availability-flagged entry (looked up by its alloc_shmem_id) before
    the new entry is written; a dead row triggers no deallocation. -/
theorem C4_publish_dealloc (mq : MessageQueue) (a id off l : Nat) :
    (0 < (mq.refBits mq.index).interest_count →
      ∀ c, c < DOMAINS_PER_TOPIC →
        (mq.refBits mq.index).availability.testBit c = true →
        ((mq.entries c mq.index).alloc_shmem_id,
         (mq.entries c mq.index).offset) ∈
          (hazcat_publish mq a id off l).deallocs)
    ∧ (∀ p ∈ (hazcat_publish mq a id off l).deallocs,
        0 < (mq.refBits mq.index).interest_count ∧
        ∃ c, c < DOMAINS_PER_TOPIC ∧
          (mq.refBits mq.index).availability.testBit c = true ∧
          p = ((mq.entries c mq.index).alloc_shmem_id,
               (mq.entries c mq.index).offset))
    ∧ ((mq.refBits mq.index).interest_count = 0 →
        (hazcat_publish mq a id off l).deallocs = []) := by
  refine ⟨?_, ?_, ?_⟩
  · intro hlive c hc hbit
    show _ ∈ (if 0 < (mq.refBits mq.index).interest_count then _ else _)
    rw [if_pos hlive, mem_rowDeallocs]
    exact ⟨c, hc, hbit, rfl⟩
  · intro p hp
    by_cases hlive : 0 < (mq.refBits mq.index).interest_count
    · refine ⟨hlive, ?_⟩
      rw [show (hazcat_publish mq a id off l).deallocs =
            (if 0 < (mq.refBits mq.index).interest_count then
              rowDeallocs mq.entries DOMAINS_PER_TOPIC mq.index
                (mq.refBits mq.index).availability
            else []) from rfl, if_pos hlive, mem_rowDeallocs] at hp
      exact hp
    · rw [show (hazcat_publish mq a id off l).deallocs =
            (if 0 < (mq.refBits mq.index).interest_count then
              rowDeallocs mq.entries DOMAINS_PER_TOPIC mq.index
                (mq.refBits mq.index).availability
            else []) from rfl, if_neg hlive] at hp
      exact absurd hp (List.not_mem_nil p)
  · intro h0
    show (if 0 < (mq.refBits mq.index).interest_count then _ else _) = _
    rw [if_neg (by omega)]

/-- Effect of a message-returning take on a row's interest count. -/
lemma hazcat_take_interest (mq : MessageQueue) (n d an ad aid : Nat)
    (f : Nat → Nat) (hm : take_slot mq n d ≠ mq.index) (j : Nat) :
    ((hazcat_take mq n d an ad aid f).mq.refBits j).interest_count =
      if j = take_slot mq n d then
        ((mq.refBits (take_slot mq n d)).interest_count +
          (UINT32_MOD - 1)) % UINT32_MOD
      else (mq.refBits j).interest_count := by
  unfold hazcat_take
  rw [if_neg hm]
  by_cases hj : j = take_slot mq n d
  · simp [hj]
  · simp [hj]

/-- The deallocation sweep a message-returning take performs. -/
lemma hazcat_take_deallocs (mq : MessageQueue) (n d an ad aid : Nat)
    (f : Nat → Nat) (hm : take_slot mq n d ≠ mq.index) :
    (hazcat_take mq n d an ad aid f).deallocs =
      if ((hazcat_take mq n d an ad aid f).mq.refBits
            (take_slot mq n d)).interest_count = 0 then
        rowDeallocs (hazcat_take mq n d an ad aid f).mq.entries
          mq.num_domains (take_slot mq n d)
          ((hazcat_take mq n d an ad aid f).mq.refBits
            (take_slot mq n d)).availability
      else []
  := by
  unfold hazcat_take
  rw [if_neg hm]
  simp

/-- A take keeps the availability mask of its row below
    `2 ^ num_domains` whenever it was and the subscriber's column is in
    range. -/
lemma hazcat_take_avail_lt (mq : MessageQueue) (n d an ad aid : Nat)
    (f : Nat → Nat) (hm : take_slot mq n d ≠ mq.index)
    (hav : (mq.refBits (take_slot mq n d)).availability <
      2 ^ mq.num_domains)
    (han : an < mq.num_domains) :
    ((hazcat_take mq n d an ad aid f).mq.refBits
        (take_slot mq n d)).availability < 2 ^ mq.num_domains := by
  unfold hazcat_take
  rw [if_neg hm]
  have hpow : (1 : Nat) <<< an < 2 ^ mq.num_domains := by
    rw [Nat.shiftLeft_eq, one_mul]
    exact Nat.pow_lt_pow_right one_lt_two han
  by_cases hz :
      (1 <<< an) &&& (mq.refBits (take_slot mq n d)).availability = 0
  · simp only [hz]
    simpa using Nat.or_lt_two_pow hav hpow
  · simp only [hz]
    simpa [hz] using hav

/-- Registration against an existing queue leaves every ref_bits record
    as it was. -/
lemma hazcat_register_existing_refBits (mq : MessageQueue)
    (domain depth : Nat) (j : Nat) :
    (hazcat_register_existing mq domain depth).mq.refBits j =
      mq.refBits j := by
  unfold hazcat_register_existing
  rcases h : (List.range DOMAINS_PER_TOPIC).find? fun i =>
      mq.domains i = domain with _ | i
  · by_cases hnd : mq.num_domains = DOMAINS_PER_TOPIC
    · simp [hnd]
    · by_cases hdep : depth > mq.len <;> simp [hnd, hdep]
  · by_cases hdep : depth > mq.len <;> simp [hdep]

/-- Unregistering a publisher leaves every ref_bits record as it was. -/
lemma hazcat_unregister_publisher_refBits (registry : Nat → Option Nat)
    (uid : Nat) (mq : MessageQueue) (j : Nat) :
    (((hazcat_unregister_publisher registry uid (some mq)).mq.getD
        mq).refBits j) = mq.refBits j := by
  unfold hazcat_unregister_publisher
  by_cases hc : 0 < mq.pub_count <;> simp [hc]

/-- Unregistering a subscription leaves every ref_bits record as it was. -/
lemma hazcat_unregister_subscription_refBits (registry : Nat → Option Nat)
    (uid : Nat) (mq : MessageQueue) (j : Nat) :
    (((hazcat_unregister_subscription registry uid (some mq)).mq.getD
        mq).refBits j) = mq.refBits j := by
  unfold hazcat_unregister_subscription
  by_cases hc : 0 < mq.sub_count <;> simp [hc]

/-- C5: across the queue operations, a row's interest_count is set only
    by publish (to the current sub_count) and decremented only by take
    (by one, as a uint32_t); a take that brings it to zero deallocates
    every availability-flagged entry of the row. -/
theorem C5_interest_accounting (mq : MessageQueue)
    (a id off l n d an ad aid : Nat) (f : Nat → Nat)
    (domain depth : Nat) (registry : Nat → Option Nat) (uid : Nat)
    (han : an < mq.num_domains)
    (hav : ∀ j, (mq.refBits j).availability < 2 ^ mq.num_domains) :
    (∀ j, ((hazcat_publish mq a id off l).mq.refBits j).interest_count =
      if j = mq.index then mq.sub_count
      else (mq.refBits j).interest_count)
    ∧ (∀ j, ((hazcat_take mq n d an ad aid f).mq.refBits j).interest_count =
      if (hazcat_take mq n d an ad aid f).result.isSome ∧
          j = (hazcat_take mq n d an ad aid f).slot then
        ((mq.refBits j).interest_count + (UINT32_MOD - 1)) % UINT32_MOD
      else (mq.refBits j).interest_count)
    ∧ (∀ j, (hazcat_register_existing mq domain depth).mq.refBits j =
        mq.refBits j)
    ∧ (∀ j, ((hazcat_unregister_publisher registry uid (some mq)).mq.getD
        mq).refBits j = mq.refBits j)
    ∧ (∀ j, ((hazcat_unregister_subscription registry uid (some mq)).mq.getD
        mq).refBits j = mq.refBits j)
    ∧ ((hazcat_take mq n d an ad aid f).result.isSome →
       ((hazcat_take mq n d an ad aid f).mq.refBits
          (hazcat_take mq n d an ad aid f).slot).interest_count = 0 →
       ∀ c, (((hazcat_take mq n d an ad aid f).mq.refBits
          (hazcat_take mq n d an ad aid f).slot).availability).testBit c =
            true →
         (((hazcat_take mq n d an ad aid f).mq.entries c
             (hazcat_take mq n d an ad aid f).slot).alloc_shmem_id,
          ((hazcat_take mq n d an ad aid f).mq.entries c
             (hazcat_take mq n d an ad aid f).slot).offset) ∈
           (hazcat_take mq n d an ad aid f).deallocs) := by
  refine ⟨?_, ?_, ?_, ?_, ?_, ?_⟩
  · intro j
    by_cases hj : j = mq.index <;> simp [hazcat_publish, hj]
  · intro j
    by_cases hm : take_slot mq n d = mq.index
    · rw [hazcat_take_noMsg mq n d an ad aid f hm]
      simp
    · have hs := hazcat_take_isSome mq n d an ad aid f hm
      rw [hazcat_take_interest mq n d an ad aid f hm j,
        hazcat_take_slot]
      by_cases hj : j = take_slot mq n d
      · rw [if_pos hj, if_pos ⟨hs, hj⟩, hj]
      · rw [if_neg hj, if_neg (fun hc => hj hc.2)]
  · intro j
    exact hazcat_register_existing_refBits mq domain depth j
  · intro j
    exact hazcat_unregister_publisher_refBits registry uid mq j
  · intro j
    exact hazcat_unregister_subscription_refBits registry uid mq j
  · intro hsome h0 c hbit
    have hm : take_slot mq n d ≠ mq.index := by
      intro he
      rw [hazcat_take_noMsg mq n d an ad aid f he] at hsome
      simp at hsome
    rw [hazcat_take_slot] at h0 hbit
    rw [hazcat_take_slot, hazcat_take_deallocs mq n d an ad aid f hm,
      if_pos h0, mem_rowDeallocs]
    have havp := hazcat_take_avail_lt mq n d an ad aid f hm
      (hav (take_slot mq n d)) han
    have hc : c < mq.num_domains := by
      by_contra hge
      have hlt : ((hazcat_take mq n d an ad aid f).mq.refBits
          (take_slot mq n d)).availability < 2 ^ c :=
        lt_of_lt_of_le havp
          (Nat.pow_le_pow_right (by norm_num) (Nat.le_of_not_lt hge))
      rw [Nat.testBit_eq_false_of_lt hlt] at hbit
      exact Bool.noConfusion hbit
    exact ⟨c, hc, hbit, rfl⟩

/-- C7: fresh creation sizes the segment and initializes the header. -/
theorem C7_fresh_creation (depth domain : Nat) :
    (hazcat_register_fresh depth domain).2 =
      sizeof_message_queue + depth * sizeof_ref_bits + depth * sizeof_entry
    ∧ (hazcat_register_fresh depth domain).1.index = 0
    ∧ (hazcat_register_fresh depth domain).1.len = depth
    ∧ (hazcat_register_fresh depth domain).1.domains 0 = CPU
    ∧ (hazcat_register_fresh depth domain).1.num_domains =
        (if domain = CPU then 1 else 2)
    ∧ (hazcat_register_fresh depth domain).1.domains 1 =
        (if domain = CPU then 0 else domain)
    ∧ (hazcat_register_fresh depth domain).1.pub_count = 0
    ∧ (hazcat_register_fresh depth domain).1.sub_count = 0 := by
  by_cases hd : domain = CPU <;>
    simp [hazcat_register_fresh, hd, mq_segment_size]

/-- C9: unregistering an endpoint whose message-queue pointer is NULL
    returns the invalid-argument code, yet the allocator was already
    hash-removed from the per-process registry. -/
theorem C9_unregister_null (registry : Nat → Option Nat) (uid : Nat) :
    (hazcat_unregister_publisher registry uid none).ret =
      RmwRet.invalidArgument
    ∧ (hazcat_unregister_subscription registry uid none).ret =
      RmwRet.invalidArgument
    ∧ (∀ k, (hazcat_unregister_publisher registry uid none).registry k =
        if k = uid then none else registry k)
    ∧ (∀ k, (hazcat_unregister_subscription registry uid none).registry k =
        if k = uid then none else registry k) :=
  ⟨rfl, rfl, fun _ => rfl, fun _ => rfl⟩

/-- C10: a take leaves the queue header fields and every row other than
    the one it examined untouched. -/
theorem C10_take_frame (mq : MessageQueue) (n d an ad aid : Nat)
    (f : Nat → Nat) :
    (hazcat_take mq n d an ad aid f).mq.index = mq.index
    ∧ (hazcat_take mq n d an ad aid f).mq.len = mq.len
    ∧ (hazcat_take mq n d an ad aid f).mq.num_domains = mq.num_domains
    ∧ (∀ j, (hazcat_take mq n d an ad aid f).mq.domains j = mq.domains j)
    ∧ (hazcat_take mq n d an ad aid f).mq.pub_count = mq.pub_count
    ∧ (hazcat_take mq n d an ad aid f).mq.sub_count = mq.sub_count
    ∧ (∀ j, j ≠ (hazcat_take mq n d an ad aid f).slot →
        (hazcat_take mq n d an ad aid f).mq.refBits j = mq.refBits j)
    ∧ (∀ c j, j ≠ (hazcat_take mq n d an ad aid f).slot →
        (hazcat_take mq n d an ad aid f).mq.entries c j = mq.entries c j) := by
  by_cases hm : take_slot mq n d = mq.index
  · rw [hazcat_take_noMsg mq n d an ad aid f hm]
    exact ⟨rfl, rfl, rfl, fun _ => rfl, rfl, rfl,
      fun _ _ => rfl, fun _ _ _ => rfl⟩
  · refine ⟨?_, ?_, ?_, ?_, ?_, ?_, ?_, ?_⟩
    · unfold hazcat_take; rw [if_neg hm]
    · unfold hazcat_take; rw [if_neg hm]
    · unfold hazcat_take; rw [if_neg hm]
    · intro j; unfold hazcat_take; rw [if_neg hm]
    · unfold hazcat_take; rw [if_neg hm]
    · unfold hazcat_take; rw [if_neg hm]
    · intro j hj
      rw [hazcat_take_slot] at hj
      unfold hazcat_take; rw [if_neg hm]
      simp [hj]
    · intro c j hj
      rw [hazcat_take_slot] at hj
      unfold hazcat_take; rw [if_neg hm]
      by_cases hz : (1 <<< an) &&& (mq.refBits (take_slot mq n d)).availability = 0 <;>
        simp [hz, hj]

/-- First-match characterization of the domain scan. -/
lemma find?_range_eq_some (p : Nat → Bool) (n j : Nat) (hj : j < n)
    (hpj : p j = true) (hmin : ∀ k, k < j → p k = false) :
    (List.range n).find? p = some j := by
  induction n with
  | zero => omega
  | succ m ih =>
    rw [List.range_succ, List.find?_append]
    rcases Nat.lt_or_ge j m with h | h
    · rw [ih h]
      rfl
    · have hjm : j = m := by omega
      have hnone : (List.range m).find? p = none := by
        rw [List.find?_eq_none]
        intro x hx
        simp [hmin x (hjm ▸ List.mem_range.mp hx)]
      rw [hnone, hjm]
      simp [hjm ▸ hpj]

/-- C6 (amended): behavior of registration against an existing queue —
    a first-match domain reuses its column (resizing only when the depth
    grows), a new domain is appended with the segment ftruncated to
    `mq_segment_size depth` (no extra entry column is added to the size),
    and a full domain table fails. -/
theorem C6_register_existing_cases (mq : MessageQueue)
    (domain depth : Nat) :
    (∀ j, j < DOMAINS_PER_TOPIC → mq.domains j = domain →
      (∀ k, k < j → mq.domains k ≠ domain) →
      (hazcat_register_existing mq domain depth).ok = true
      ∧ (hazcat_register_existing mq domain depth).array_num = j
      ∧ (hazcat_register_existing mq domain depth).mq.num_domains =
          mq.num_domains
      ∧ (∀ k, (hazcat_register_existing mq domain depth).mq.domains k =
          mq.domains k)
      ∧ (hazcat_register_existing mq domain depth).mq.len =
          (if depth > mq.len then depth else mq.len)
      ∧ (hazcat_register_existing mq domain depth).truncate_size =
          (if depth > mq.len then some (mq_segment_size depth) else none))
    ∧ ((∀ k, k < DOMAINS_PER_TOPIC → mq.domains k ≠ domain) →
      mq.num_domains ≠ DOMAINS_PER_TOPIC →
      (hazcat_register_existing mq domain depth).ok = true
      ∧ (hazcat_register_existing mq domain depth).array_num =
          mq.num_domains
      ∧ (hazcat_register_existing mq domain depth).mq.num_domains =
          mq.num_domains + 1
      ∧ (hazcat_register_existing mq domain depth).mq.domains
          mq.num_domains = domain
      ∧ (∀ k, k ≠ mq.num_domains →
          (hazcat_register_existing mq domain depth).mq.domains k =
            mq.domains k)
      ∧ (hazcat_register_existing mq domain depth).mq.len =
          (if depth > mq.len then depth else mq.len)
      ∧ (hazcat_register_existing mq domain depth).truncate_size =
          some (mq_segment_size depth))
    ∧ ((∀ k, k < DOMAINS_PER_TOPIC → mq.domains k ≠ domain) →
      mq.num_domains = DOMAINS_PER_TOPIC →
      (hazcat_register_existing mq domain depth).ok = false
      ∧ (hazcat_register_existing mq domain depth).truncate_size = none
      ∧ (hazcat_register_existing mq domain depth).mq.num_domains =
          mq.num_domains
      ∧ (hazcat_register_existing mq domain depth).mq.len = mq.len) := by
  refine ⟨?_, ?_, ?_⟩
  · intro j hj hpj hmin
    have hf : (List.range DOMAINS_PER_TOPIC).find?
        (fun i => decide (mq.domains i = domain)) = some j :=
      find?_range_eq_some _ _ j hj (by simp [hpj])
        (fun k hk => by simp [hmin k hk])
    unfold hazcat_register_existing
    rw [hf]
    by_cases hd : depth > mq.len <;> simp [hd]
  · intro hno hnd
    have hf : (List.range DOMAINS_PER_TOPIC).find?
        (fun i => decide (mq.domains i = domain)) = none :=
      List.find?_eq_none.mpr
        (fun x hx => by simp [hno x (List.mem_range.mp hx)])
    unfold hazcat_register_existing
    rw [hf]
    dsimp only
    rw [if_neg hnd]
    by_cases hd : mq.len < depth
    · rw [if_pos hd]
      exact ⟨rfl, rfl, rfl, by simp, fun k hk => by simp [hk],
        by rw [if_pos hd], rfl⟩
    · rw [if_neg hd]
      exact ⟨rfl, rfl, rfl, by simp, fun k hk => by simp [hk],
        by rw [if_neg hd], rfl⟩
  · intro hno hnd
    have hf : (List.range DOMAINS_PER_TOPIC).find?
        (fun i => decide (mq.domains i = domain)) = none :=
      List.find?_eq_none.mpr
        (fun x hx => by simp [hno x (List.mem_range.mp hx)])
    unfold hazcat_register_existing
    rw [hf]
    simp [hnd]

/-- C1 witness: a take at a concrete pending-message state. -/
theorem C1_take_keep_last_witness :
    (hazcat_take mqTakeW 0 1 0 0 5 (fun _ => 0)).slot =
      (if (mqTakeW.index + mqTakeW.len - 0) % mqTakeW.len ≤ 1 then 0
       else (mqTakeW.index + mqTakeW.len - 1) % mqTakeW.len)
    ∧ (hazcat_take mqTakeW 0 1 0 0 5 (fun _ => 0)).result.isSome
    ∧ (hazcat_take mqTakeW 0 1 0 0 5 (fun _ => 0)).next_index =
        ((hazcat_take mqTakeW 0 1 0 0 5 (fun _ => 0)).slot + 1) % mqTakeW.len
    ∧ (mqTakeW.index + mqTakeW.len -
        (hazcat_take mqTakeW 0 1 0 0 5 (fun _ => 0)).next_index) %
          mqTakeW.len ≤ 1 :=
  C1_take_keep_last mqTakeW 0 1 0 0 5 (fun _ => 0) (by decide) (by decide)
    (by decide) (by decide)

/-- C10 witness: the same take leaves the untouched row 1 unchanged. -/
theorem C10_take_frame_witness :
    (hazcat_take mqTakeW 0 1 0 0 5 (fun _ => 0)).mq.refBits 1 =
      mqTakeW.refBits 1 :=
  (C10_take_frame mqTakeW 0 1 0 0 5 (fun _ => 0)).2.2.2.2.2.2.1 1 (by decide)

/-- C4 witness: overwriting the live row deallocates its column-0 copy. -/
theorem C4_publish_dealloc_witness :
    ((mqPubW.entries 0 mqPubW.index).alloc_shmem_id,
     (mqPubW.entries 0 mqPubW.index).offset) ∈
      (hazcat_publish mqPubW 0 11 80 8).deallocs :=
  (C4_publish_dealloc mqPubW 0 11 80 8).1 (by decide) 0 (by decide) (by decide)

/-- C5 witness: the last takers deallocation sweep frees the row's only
    copy. -/
theorem C5_interest_accounting_witness :
    (((hazcat_take mqT5 0 4 0 0 6 (fun _ => 0)).mq.entries 0
        (hazcat_take mqT5 0 4 0 0 6 (fun _ => 0)).slot).alloc_shmem_id,
     ((hazcat_take mqT5 0 4 0 0 6 (fun _ => 0)).mq.entries 0
        (hazcat_take mqT5 0 4 0 0 6 (fun _ => 0)).slot).offset) ∈
      (hazcat_take mqT5 0 4 0 0 6 (fun _ => 0)).deallocs :=
  (C5_interest_accounting mqT5 0 0 0 0 0 4 0 0 6 (fun _ => 0) 0 0
      (fun _ => none) 0 (by decide)
      (by intro j; simp only [mqT5]; split <;> norm_num)).2.2.2.2.2
    (by decide) (by decide) 0 (by decide)

/-- C2: a same-domain (CUDA, array_num 1, alloc->domain 65536) take hits
    the zero-copy branch but reads the entry at column 65536 — far
    outside the segment's two columns — instead of column 1, so the
    offset it returns and shares is not the offset the publisher stored. -/
theorem C2_zero_copy_wrong_column :
    mqC2state.entries 1 0 = ⟨5, 100, 8⟩
    ∧ (1 <<< 1) &&& (mqC2state.refBits 0).availability ≠ 0
    ∧ (hazcat_take mqC2state 0 4 1 65536 6 (fun _ => 0)).slot = 0
    ∧ (hazcat_take mqC2state 0 4 1 65536 6 (fun _ => 0)).copied = false
    ∧ (hazcat_take mqC2state 0 4 1 65536 6 (fun _ => 0)).result =
        some (0, 0)
    ∧ (hazcat_take mqC2state 0 4 1 65536 6 (fun _ => 0)).result ≠
        some ((mqC2state.entries 1 0).alloc_shmem_id,
              (mqC2state.entries 1 0).offset)
    ∧ (hazcat_take mqC2state 0 4 1 65536 6 (fun _ => 0)).shares =
        [(0, 0)] := by decide

/-- C8: the no-message return of hazcat_take leaves shared state and
    counts untouched but returns with the acquired file lock still
    held. -/
theorem C8_no_message_lock_held :
    (hazcat_take mqC8state 0 4 0 0 5 (fun _ => 0)).result = none
    ∧ (hazcat_take mqC8state 0 4 0 0 5 (fun _ => 0)).fileLockHeld = true
    ∧ (hazcat_take mqC8state 0 4 0 0 5 (fun _ => 0)).mq = mqC8state
    ∧ (hazcat_take mqC8state 0 4 0 0 5 (fun _ => 0)).next_index = 0 :=
  ⟨rfl, rfl, rfl, rfl⟩

/-- C6 counterexample: appending the domain 65536 to mqRegW ftruncates
    the segment to 288 bytes — its size before the append, not one entry
    column (64 bytes) more — and a registration whose domain matches
    column 0 still changes the structure (len grows to its depth 8). -/
theorem C6_claim_counterexample :
    (hazcat_register_existing mqRegW 65536 4).mq.num_domains = 2
    ∧ (hazcat_register_existing mqRegW 65536 4).truncate_size = some 288
    ∧ mq_segment_size 4 = 288
    ∧ (hazcat_register_existing mqRegW 65536 4).truncate_size ≠
        some (288 + 4 * sizeof_entry)
    ∧ (hazcat_register_existing mqRegW 0 8).array_num = 0
    ∧ mqRegW.domains 0 = 0
    ∧ (hazcat_register_existing mqRegW 0 8).mq.len = 8
    ∧ mqRegW.len = 4 := by decide

/-- C6 witness: the append case of the amended statement at mqRegW. -/
theorem C6_register_existing_witness :
    (hazcat_register_existing mqRegW 65536 4).ok = true
    ∧ (hazcat_register_existing mqRegW 65536 4).array_num =
        mqRegW.num_domains
    ∧ (hazcat_register_existing mqRegW 65536 4).mq.num_domains =
        mqRegW.num_domains + 1
    ∧ (hazcat_register_existing mqRegW 65536 4).mq.domains
        mqRegW.num_domains = 65536
    ∧ (hazcat_register_existing mqRegW 65536 4).truncate_size =
        some (mq_segment_size 4) := by
  have h := (C6_register_existing_cases mqRegW 65536 4).2.1
    (by decide) (by decide)
  exact ⟨h.1, h.2.1, h.2.2.1, h.2.2.2.1, h.2.2.2.2.2.2⟩

end Hazcat
